import Mathlib

/-!
Verification of the BajajRX AI_System core pipeline against its specification.

The Python source (AI_System/utils.py, AI_System/views.py) is shallowly
embedded below.  Python strings are modelled as `List Char` (sequences of
code points, matching Python's `len` and indexing) or as Lean `String`
where convenient; machine floats appear only in the progress computation
and are modelled by exact rationals at the single point the claims need
(see `progress_value`); external capabilities (sentence embedding, FAISS
nearest-neighbor search, the Gemini text-completion service) are modelled
as parameters or oracles, with the documented deterministic contract of
FAISS `IndexFlatL2.search` spelled out where a claim depends on it.
-/

namespace AISystem

/-- Python `str.strip` whitespace class, restricted to the ASCII whitespace
characters (space, tab, newline, carriage return, vertical tab, form feed).
Python additionally strips non-ASCII Unicode whitespace; none of the claims
exercise those characters. -/
def pyIsSpace (c : Char) : Bool :=
  c == ' ' || c == '\t' || c == '\n' || c == '\r' || c == '\x0b' || c == '\x0c'

/-- Python `str.strip()` on a string modelled as a list of characters:
drop the whitespace run at the front, then the whitespace run at the back. -/
def pyStrip (l : List Char) : List Char :=
  List.rdropWhile pyIsSpace (l.dropWhile pyIsSpace)

/-- The loop of `extract_and_store_clauses` (utils.py lines 20-32), translated
from the imperative buffer/append loop to structural recursion on the
remaining lines.  `buffer` is the accumulation buffer string; lines shorter
than 40 characters are appended to it as `buffer += " " + line`; a long line
first flushes a non-empty buffer as `buffer.strip()` and is then emitted on
its own. At end of input a non-empty buffer is flushed. -/
def segLoop : List (List Char) → List Char → List (List Char)
  | [], buffer => if buffer.isEmpty then [] else [pyStrip buffer]
  | l :: rest, buffer =>
      if l.length < 40 then segLoop rest (buffer ++ ' ' :: l)
      else if buffer.isEmpty then l :: segLoop rest []
      else pyStrip buffer :: l :: segLoop rest []

/-- The preprocessing of utils.py line 18:
`raw_clauses = [p.strip() for p in full_text.split("\n") if p.strip()]`,
given the already-split line list. -/
def rawClauses (lines : List (List Char)) : List (List Char) :=
  (lines.map pyStrip).filter (fun l => !l.isEmpty)

/-- The Clause Segmenter (utils.py lines 18-32): strip and drop blank lines,
then run the merge loop with an initially empty buffer. -/
def segment_lines (lines : List (List Char)) : List (List Char) :=
  segLoop (rawClauses lines) []

/-- String-level wrapper of the Clause Segmenter. -/
def segmentStrings (lines : List String) : List String :=
  (segment_lines (lines.map String.data)).map (fun l => String.mk l)

/-- Join a run of lines with single-space separators, as the segmenter's
buffer concatenation produces. -/
def joinSp : List (List Char) → List Char
  | [] => []
  | [l] => l
  | l :: l2 :: ls => l ++ ' ' :: joinSp (l2 :: ls)

/-- The buffer string the source's loop holds after absorbing the short-line
run `run`: empty for the empty run, otherwise a leading space followed by
the space-join of the run (because each absorption is `buffer += " " + line`). -/
def bufOf : List (List Char) → List Char
  | [] => []
  | l :: ls => ' ' :: joinSp (l :: ls)

/-- Run-level counterpart of `segLoop`: instead of a flattened buffer string
it accumulates the run of short lines, so that each emitted clause
corresponds to one run. -/
def segRuns : List (List Char) → List (List Char) → List (List (List Char))
  | [], run => if run.isEmpty then [] else [run]
  | l :: rest, run =>
      if l.length < 40 then segRuns rest (run ++ [l])
      else if run.isEmpty then [l] :: segRuns rest []
      else run :: [l] :: segRuns rest []

/-- A line as produced by the strip-and-filter preprocessing: non-empty with
no whitespace at either end. -/
def GoodLine (l : List Char) : Prop :=
  l ≠ [] ∧ (∀ c, l.head? = some c → pyIsSpace c = false) ∧
    (∀ c, l.getLast? = some c → pyIsSpace c = false)

theorem pyStrip_good (l : List Char) : pyStrip l = [] ∨ GoodLine (pyStrip l) := by
  by_cases h : pyStrip l = []
  · exact Or.inl h
  · refine Or.inr ⟨h, ?_, ?_⟩
    · intro c hc
      obtain ⟨t, ht⟩ := List.rdropWhile_prefix pyIsSpace (l.dropWhile pyIsSpace)
      have ht' : pyStrip l ++ t = l.dropWhile pyIsSpace := ht
      cases hps : pyStrip l with
      | nil => exact absurd hps h
      | cons a as =>
        rw [hps] at hc ht'
        simp only [List.head?_cons, Option.some.injEq] at hc
        have hne : l.dropWhile pyIsSpace ≠ [] := by
          rw [← ht']; simp
        have hd : (l.dropWhile pyIsSpace).head? = some a := by
          rw [← ht']; simp
        have hnot := List.head_dropWhile_not pyIsSpace l hne
        rw [List.head?_eq_head hne, Option.some.injEq] at hd
        rw [hd] at hnot
        rw [← hc]
        exact hnot
    · intro c hc
      have hl : List.rdropWhile pyIsSpace (l.dropWhile pyIsSpace) ≠ [] := h
      have hnot := List.rdropWhile_last_not pyIsSpace (l.dropWhile pyIsSpace) hl
      have hc' : (pyStrip l).getLast? = some c := hc
      rw [List.getLast?_eq_getLast _ h, Option.some.injEq] at hc'
      have hgl : (List.rdropWhile pyIsSpace (l.dropWhile pyIsSpace)).getLast hl = c := hc'
      rw [hgl] at hnot
      simpa using hnot

theorem pyStrip_of_good (l : List Char) (hg : GoodLine l) : pyStrip l = l := by
  obtain ⟨hne, hh, hl⟩ := hg
  have hdrop : l.dropWhile pyIsSpace = l := by
    cases l with
    | nil => rfl
    | cons a as =>
      rw [List.dropWhile_cons]
      have : pyIsSpace a = false := hh a rfl
      simp [this]
  rw [pyStrip, hdrop]
  rw [List.rdropWhile_eq_self_iff]
  intro hl'
  have := hl (l.getLast hl') (List.getLast?_eq_getLast l hl')
  simp [this]

theorem pyStrip_space_cons (l : List Char) : pyStrip (' ' :: l) = pyStrip l := by
  rw [pyStrip, pyStrip, List.dropWhile_cons]
  norm_num [pyIsSpace]

theorem joinSp_ne_nil (run : List (List Char)) (hne : run ≠ [])
    (hg : ∀ l ∈ run, l ≠ []) : joinSp run ≠ [] := by
  cases run with
  | nil => exact absurd rfl hne
  | cons a t =>
    cases t with
    | nil => exact hg a (by simp)
    | cons b t2 =>
      have ha : a ≠ [] := hg a (by simp)
      simp [joinSp]

theorem joinSp_good (run : List (List Char)) (hne : run ≠ [])
    (hg : ∀ l ∈ run, GoodLine l) : GoodLine (joinSp run) := by
  induction run with
  | nil => exact absurd rfl hne
  | cons a t ih =>
    cases t with
    | nil =>
      have := hg a (by simp)
      simpa [joinSp] using this
    | cons b t2 =>
      have ha : GoodLine a := hg a (by simp)
      have hrest : GoodLine (joinSp (b :: t2)) := by
        refine ih (by simp) ?_
        intro l hl
        exact hg l (by simp [hl])
      refine ⟨?_, ?_, ?_⟩
      · show a ++ ' ' :: joinSp (b :: t2) ≠ []
        simp
      · intro c hc
        show pyIsSpace c = false
        have hhd : (a ++ ' ' :: joinSp (b :: t2)).head? = a.head? := by
          cases hna : a with
          | nil => exact absurd hna ha.1
          | cons x xs => simp
        rw [joinSp] at hc
        rw [hhd] at hc
        exact ha.2.1 c hc
      · intro c hc
        show pyIsSpace c = false
        have hlast : (a ++ ' ' :: joinSp (b :: t2)).getLast? = (joinSp (b :: t2)).getLast? := by
          have h1 : (a ++ ' ' :: joinSp (b :: t2)).getLast? = (' ' :: joinSp (b :: t2)).getLast? := by
            apply List.getLast?_append_of_ne_nil
            simp
          rw [h1]
          have h2 : (' ' :: joinSp (b :: t2)) = [' '] ++ joinSp (b :: t2) := by simp
          rw [h2]
          apply List.getLast?_append_of_ne_nil
          exact hrest.1
        rw [joinSp] at hc
        rw [hlast] at hc
        exact hrest.2.2 c hc

theorem joinSp_append_single (run : List (List Char)) (l : List Char)
    (hne : run ≠ []) : joinSp (run ++ [l]) = joinSp run ++ ' ' :: l := by
  induction run with
  | nil => exact absurd rfl hne
  | cons a t ih =>
    cases t with
    | nil => simp [joinSp]
    | cons b t2 =>
      have := ih (by simp)
      show a ++ ' ' :: joinSp ((b :: t2) ++ [l]) = (a ++ ' ' :: joinSp (b :: t2)) ++ ' ' :: l
      rw [this]
      simp

theorem bufOf_append (run : List (List Char)) (l : List Char) :
    bufOf (run ++ [l]) = bufOf run ++ ' ' :: l := by
  cases run with
  | nil => simp [bufOf, joinSp]
  | cons a t =>
    show ' ' :: joinSp ((a :: t) ++ [l]) = (' ' :: joinSp (a :: t)) ++ ' ' :: l
    rw [joinSp_append_single (a :: t) l (by simp)]
    simp

theorem pyStrip_bufOf (run : List (List Char)) (hne : run ≠ [])
    (hg : ∀ l ∈ run, GoodLine l) : pyStrip (bufOf run) = joinSp run := by
  cases run with
  | nil => exact absurd rfl hne
  | cons a t =>
    show pyStrip (' ' :: joinSp (a :: t)) = joinSp (a :: t)
    rw [pyStrip_space_cons]
    exact pyStrip_of_good _ (joinSp_good (a :: t) (by simp) hg)

theorem segLoop_eq_segRuns (raw : List (List Char)) :
    ∀ run : List (List Char), (∀ l ∈ raw, GoodLine l) → (∀ l ∈ run, GoodLine l) →
    segLoop raw (bufOf run) = (segRuns raw run).map joinSp := by
  induction raw with
  | nil =>
    intro run _ hrun
    cases run with
    | nil => rfl
    | cons a t =>
      show segLoop [] (bufOf (a :: t)) = [joinSp (a :: t)]
      rw [segLoop]
      have hbe : (bufOf (a :: t)).isEmpty = false := by
        show ((' ' :: joinSp (a :: t)).isEmpty) = false
        rfl
      rw [hbe]
      simp [pyStrip_bufOf (a :: t) (by simp) hrun]
  | cons l rest ih =>
    intro run hraw hrun
    have hl : GoodLine l := hraw l (by simp)
    have hrest : ∀ x ∈ rest, GoodLine x := fun x hx => hraw x (by simp [hx])
    rw [segLoop, segRuns]
    by_cases hlen : l.length < 40
    · rw [if_pos hlen, if_pos hlen]
      have hb : bufOf run ++ ' ' :: l = bufOf (run ++ [l]) := (bufOf_append run l).symm
      rw [hb]
      refine ih (run ++ [l]) hrest ?_
      intro x hx
      rcases List.mem_append.mp hx with h1 | h2
      · exact hrun x h1
      · simp at h2
        rw [h2]
        exact hl
    · rw [if_neg hlen, if_neg hlen]
      cases run with
      | nil =>
        have : (bufOf ([] : List (List Char))).isEmpty = true := rfl
        rw [this]
        simp only [if_pos rfl]
        have hempty : ([] : List Char) = bufOf [] := rfl
        rw [show (segLoop rest [] : List (List Char)) = segLoop rest (bufOf []) from rfl]
        rw [ih [] hrest (by simp)]
        simp [List.isEmpty_nil, joinSp]
      | cons a t =>
        have hbe : (bufOf (a :: t)).isEmpty = false := rfl
        rw [hbe]
        have h2 : ((a :: t : List (List Char)).isEmpty) = false := rfl
        rw [h2]
        simp only [Bool.false_eq_true, if_false, List.map_cons]
        rw [pyStrip_bufOf (a :: t) (by simp) hrun]
        rw [show (segLoop rest [] : List (List Char)) = segLoop rest (bufOf []) from rfl]
        rw [ih [] hrest (by simp)]
        simp [joinSp]

theorem segRuns_flatten (raw : List (List Char)) :
    ∀ run, (segRuns raw run).flatten = run ++ raw := by
  induction raw with
  | nil =>
    intro run
    cases run with
    | nil => rfl
    | cons a t => simp [segRuns]
  | cons l rest ih =>
    intro run
    rw [segRuns]
    by_cases hlen : l.length < 40
    · rw [if_pos hlen, ih (run ++ [l])]
      simp
    · rw [if_neg hlen]
      cases run with
      | nil => simp [ih []]
      | cons a t => simp [ih []]

theorem segRuns_good (raw : List (List Char)) :
    ∀ run, (∀ x ∈ raw, GoodLine x) → (∀ x ∈ run, GoodLine x) →
    ∀ r ∈ segRuns raw run, r ≠ [] ∧ ∀ x ∈ r, GoodLine x := by
  induction raw with
  | nil =>
    intro run _ hrun r hr
    cases run with
    | nil => simp [segRuns] at hr
    | cons a t =>
      simp [segRuns] at hr
      rw [hr]
      exact ⟨by simp, hrun⟩
  | cons l rest ih =>
    intro run hraw hrun r hr
    have hl : GoodLine l := hraw l (by simp)
    have hrest : ∀ x ∈ rest, GoodLine x := fun x hx => hraw x (by simp [hx])
    rw [segRuns] at hr
    by_cases hlen : l.length < 40
    · rw [if_pos hlen] at hr
      refine ih (run ++ [l]) hrest ?_ r hr
      intro x hx
      rcases List.mem_append.mp hx with h1 | h2
      · exact hrun x h1
      · simp at h2
        rw [h2]
        exact hl
    · rw [if_neg hlen] at hr
      cases run with
      | nil =>
        have hr' : r ∈ [l] :: segRuns rest [] := hr
        rcases List.mem_cons.mp hr' with h1 | h2
        · rw [h1]
          refine ⟨by simp, ?_⟩
          intro x hx
          simp at hx
          rw [hx]
          exact hl
        · exact ih [] hrest (by simp) r h2
      | cons a t =>
        have hr' : r ∈ (a :: t) :: [l] :: segRuns rest [] := hr
        rcases List.mem_cons.mp hr' with h1 | hmem
        · rw [h1]
          exact ⟨by simp, hrun⟩
        · rcases List.mem_cons.mp hmem with h1 | h1
          · rw [h1]
            refine ⟨by simp, ?_⟩
            intro x hx
            simp at hx
            rw [hx]
            exact hl
          · exact ih [] hrest (by simp) r h1

theorem rawClauses_good (lines : List (List Char)) :
    ∀ l ∈ rawClauses lines, GoodLine l := by
  intro l hl
  rw [rawClauses] at hl
  rw [List.mem_filter] at hl
  obtain ⟨hmem, hne⟩ := hl
  rw [List.mem_map] at hmem
  obtain ⟨x, _, hx⟩ := hmem
  rcases pyStrip_good x with h | h
  · rw [hx] at h
    rw [h] at hne
    simp at hne
  · rw [← hx]
    exact h

/-- C2 (counterexample): the Clause Segmenter applied to
["Section 1", "a", "b", "Section 2 full clause text here ok"] does NOT
return the two clauses claimed by the spec: the fourth line has only 34
characters, which is below the 40-character short-line threshold, so it is
merged into the running buffer instead of starting a new clause. -/
theorem C2_counterexample :
    segmentStrings ["Section 1", "a", "b", "Section 2 full clause text here ok"] ≠
      ["Section 1 a b", "Section 2 full clause text here ok"] := by
  decide

/-- C2 (amended): the Clause Segmenter applied to
["Section 1", "a", "b", "Section 2 full clause text here ok"] with the
source's short-line threshold of 40 returns exactly the single clause
"Section 1 a b Section 2 full clause text here ok", because every input
line (including the fourth, of length 34) is below the threshold and is
therefore merged into one buffer that is flushed at end of input. -/
theorem C2_amended :
    segmentStrings ["Section 1", "a", "b", "Section 2 full clause text here ok"] =
      ["Section 1 a b Section 2 full clause text here ok"] := by
  decide

/-- C7: for every input line sequence, the clauses emitted by the Clause
Segmenter partition the trimmed, non-empty lines of the input into
contiguous runs (in order): each emitted clause is the single-space join
of one run, the runs concatenate back to exactly the trimmed non-empty
line list, and no emitted clause is empty.  Removing the re-inserted
single-space separators from the concatenated clauses therefore
reproduces exactly the trimmed, non-empty input lines in order. -/
theorem C7_segmenter_reassembly (lines : List (List Char)) :
    ∃ runs : List (List (List Char)),
      runs.flatten = rawClauses lines ∧
      segment_lines lines = runs.map joinSp ∧
      (∀ r ∈ runs, r ≠ []) ∧
      (∀ c ∈ segment_lines lines, c ≠ []) := by
  refine ⟨segRuns (rawClauses lines) [], ?_, ?_, ?_, ?_⟩
  · rw [segRuns_flatten]
    simp
  · rw [segment_lines]
    rw [show ([] : List Char) = bufOf [] from rfl]
    exact segLoop_eq_segRuns (rawClauses lines) [] (rawClauses_good lines) (by simp)
  · intro r hr
    exact (segRuns_good (rawClauses lines) [] (rawClauses_good lines) (by simp) r hr).1
  · intro c hc
    rw [segment_lines] at hc
    rw [show ([] : List Char) = bufOf [] from rfl] at hc
    rw [segLoop_eq_segRuns (rawClauses lines) [] (rawClauses_good lines) (by simp)] at hc
    rw [List.mem_map] at hc
    obtain ⟨r, hr, hcr⟩ := hc
    have hgood := segRuns_good (rawClauses lines) [] (rawClauses_good lines) (by simp) r hr
    rw [← hcr]
    exact joinSp_ne_nil r hgood.1 (fun x hx => (hgood.2 x hx).1)

/-! ## Progress Tracker (utils.py lines 35-39)

The source computes `progress = int((i + 1) / len(clauses) * 100)` in IEEE
floating point.  The model below uses exact rationals with Python's
`int()` truncation toward zero (`q.num / q.den` in truncating integer
division).  For the final write, where `completed = total`, the float
computation is exact (`x / x = 1.0` for any finite non-zero float), so the
rational model agrees with the float source there; intermediate writes can
differ from the float source by one unit of rounding, and no claim depends
on them. -/

/-- Python `int()` applied to an exact rational: truncation toward zero. -/
def pyInt (q : ℚ) : ℤ := q.num / (q.den : ℤ)

/-- The progress percentage written after `completed` of `total` clause
writes: `int((completed / total) * 100)` (utils.py line 38). -/
def progress_value (completed total : ℕ) : ℤ :=
  pyInt (((completed : ℚ) / (total : ℚ)) * 100)

/-- The full sequence of progress values written to the Progress Tracker by
the clause-persistence loop of `extract_and_store_clauses`
(utils.py lines 35-39), in write order. -/
def ingestion_progress_writes (clauses : List (List Char)) : List ℤ :=
  (List.range clauses.length).map (fun i => progress_value (i + 1) clauses.length)

/-- C8: for every ingestion that persists N >= 1 clauses to completion, the
last progress value written to the Progress Tracker (the value after the
N-th clause write) is exactly the integer 100. -/
theorem C8_final_progress_is_100 (clauses : List (List Char)) (h : clauses ≠ []) :
    (ingestion_progress_writes clauses).getLast? = some 100 := by
  obtain ⟨n, hn⟩ : ∃ n, clauses.length = n + 1 := by
    cases clauses with
    | nil => exact absurd rfl h
    | cons a t => exact ⟨t.length, by simp⟩
  rw [ingestion_progress_writes, hn, List.range_succ, List.map_append]
  simp only [List.map_cons, List.map_nil]
  rw [List.getLast?_concat]
  have hne : ((n + 1 : ℕ) : ℚ) ≠ 0 := Nat.cast_ne_zero.mpr (Nat.succ_ne_zero n)
  have hq : (((n + 1 : ℕ) : ℚ) / ((n + 1 : ℕ) : ℚ)) * 100 = 100 := by
    rw [div_self hne, one_mul]
  rw [progress_value, hq]
  rfl

/-- C8 witness: a concrete one-clause ingestion ends at progress 100. -/
theorem C8_witness :
    (["a".data] : List (List Char)) ≠ [] ∧
      (ingestion_progress_writes ["a".data]).getLast? = some 100 :=
  ⟨by decide, C8_final_progress_is_100 ["a".data] (by decide)⟩

/-! ## Vector Index (views.py lines 20-59)

The embedding capability (`SentenceTransformer.encode`) is an arbitrary
parameter `emb : String → List ℤ` (a deterministic map from a text to a
vector; integer coordinates suffice for every claim).  The nearest-neighbor
capability (`faiss.IndexFlatL2.search`) is modelled by its documented
contract: rank all stored vectors by ascending squared Euclidean distance
to the query vector, break ties by lower index, return the first `k`
labels, and pad with the label `-1` when fewer than `k` vectors are
stored. -/

/-- Squared Euclidean distance between two vectors (FAISS `IndexFlatL2`
metric).  Vectors produced by one embedding have equal length, so the
truncating `zip` is exact on every input the model feeds it. -/
def sqDist (u v : List ℤ) : ℤ :=
  ((u.zip v).map (fun p => (p.1 - p.2) * (p.1 - p.2))).sum

/-- Ascending lexicographic order on (distance, index) pairs: the ranking
order of IndexFlatL2, ties broken by the lower index. -/
def pairLe (a b : ℤ × ℤ) : Bool :=
  decide (a.1 < b.1 ∨ (a.1 = b.1 ∧ a.2 ≤ b.2))

def insertPair (a : ℤ × ℤ) : List (ℤ × ℤ) → List (ℤ × ℤ)
  | [] => [a]
  | b :: t => if pairLe a b then a :: b :: t else b :: insertPair a t

/-- Stable insertion sort by `pairLe`. -/
def sortPairs : List (ℤ × ℤ) → List (ℤ × ℤ)
  | [] => []
  | a :: t => insertPair a (sortPairs t)

/-- Model of the external nearest-neighbor capability
`faiss_index.search(query_vec, top_k)` for an `IndexFlatL2` holding `vecs`:
the row of labels it returns.  Exact search ranks every stored vector by
ascending squared L2 distance (ties:  lower label first) and, per the
documented FAISS contract, pads the row with the sentinel label `-1` when
fewer than `top_k` vectors are stored. -/
def faissSearchLabels (vecs : List (List ℤ)) (qv : List ℤ) (k : ℕ) : List ℤ :=
  let ranked := sortPairs ((List.range vecs.length).map
    (fun i => (sqDist qv (vecs.getD i []), (i : ℤ))))
  let top := (ranked.map (fun p => p.2)).take k
  top ++ List.replicate (k - top.length) (-1)

/-- The module-level mutable state of views.py lines 20-30: the clause
corpus as stored in the database (in `Clause.objects.all()` order), and the
two globals `faiss_index` (the stored vectors, `none` when uninitialized)
and `clause_texts` (the text snapshot aligned with the vectors). -/
structure IndexState where
  clauses : List String
  faiss_index : Option (List (List ℤ))
  clause_texts : List String

/-- `build_faiss_index` (views.py lines 26-40): snapshot the corpus into
`clause_texts`; if it is empty, set the index to `None`; otherwise embed
every clause and build a flat L2 index over the embeddings. -/
def build_faiss_index (emb : String → List ℤ) (ix : IndexState) : IndexState :=
  let texts := ix.clauses
  if texts.isEmpty then { ix with clause_texts := texts, faiss_index := none }
  else { ix with clause_texts := texts, faiss_index := some (texts.map emb) }

/-- Python list indexing `xs[i]` with an integer index: negative indices
wrap from the end; an out-of-range index raises IndexError, modelled as
`none` (the pipeline only ever indexes with FAISS labels, which are either
valid positions or the sentinel `-1`, so with a non-empty snapshot the
`none` branch is unreachable). -/
def pyListGet (xs : List String) (i : ℤ) : Option String :=
  if 0 ≤ i then xs[i.toNat]?
  else if 0 ≤ i + xs.length then xs[(i + xs.length).toNat]?
  else none

/-- `semantic_search` (views.py lines 43-59): lazily rebuild when the index
is uninitialized; return `[]` when it is still uninitialized or the
snapshot is empty; otherwise embed the query, fetch the label row from the
nearest-neighbor capability, and keep `clause_texts[idx]` for every label
with `idx < len(clause_texts)` (the source's guard, which admits the
negative sentinel). -/
def semantic_search (emb : String → List ℤ) (query_text : String) (top_k : ℕ)
    (ix0 : IndexState) : List String × IndexState :=
  let ix := if ix0.faiss_index.isNone then build_faiss_index emb ix0 else ix0
  match ix.faiss_index with
  | none => ([], ix)
  | some vecs =>
    if ix.clause_texts.isEmpty then ([], ix)
    else
      let qv := emb query_text
      let labels := faissSearchLabels vecs qv top_k
      (labels.filterMap (fun idx =>
        if idx < (ix.clause_texts.length : ℤ) then pyListGet ix.clause_texts idx else none), ix)

/-- C3 (counterexample): calling search with the vector index uninitialized
does not always return the empty list — the source first performs a lazy
rebuild (views.py lines 46-47), so with a non-empty clause corpus the call
returns results.  Here the index is `none`, the corpus holds one clause,
and search returns that clause (three times, see C6). -/
theorem C3_counterexample :
    (semantic_search (fun _ => ([0] : List ℤ)) "q" 3
      ⟨["hello world clause"], none, []⟩).1 ≠ [] := by
  decide

/-- C3 (amended): search returns the empty result list when the index is
uninitialized and the clause corpus is empty (so the lazy rebuild leaves it
uninitialized), and when the index is initialized over an empty snapshot;
an uninitialized index with a non-empty corpus is lazily rebuilt and can
return results. -/
theorem C3_amended (emb : String → List ℤ) (q : String) (k : ℕ) (ix : IndexState)
    (h : (ix.faiss_index = none ∧ ix.clauses = []) ∨
         (ix.faiss_index ≠ none ∧ ix.clause_texts = [])) :
    (semantic_search emb q k ix).1 = [] := by
  obtain ⟨cl, fi, ct⟩ := ix
  rcases h with ⟨h1, h2⟩ | ⟨h1, h2⟩
  · simp only at h1 h2
    subst h1
    subst h2
    simp [semantic_search, build_faiss_index]
  · simp only at h1 h2
    subst h2
    cases fi with
    | none => exact absurd rfl h1
    | some vecs => simp [semantic_search]

/-- C3 witness: the empty initial state yields an empty search result. -/
theorem C3_witness :
    (semantic_search (fun _ => ([] : List ℤ)) "x" 3 ⟨[], none, []⟩).1 = [] :=
  C3_amended (fun _ => []) "x" 3 ⟨[], none, []⟩ (Or.inl ⟨rfl, rfl⟩)

/-- A concrete instance of the embedding capability (text length as a
one-dimensional vector), used to exhibit the `N < k` behavior of search. -/
def lenEmbed : String → List ℤ := fun s => [(s.length : ℤ)]

/-- Distances of a result list to the query, under a given embedding. -/
def distList (emb : String → List ℤ) (q : String) (res : List String) : List ℤ :=
  res.map (fun s => sqDist (emb q) (emb s))

/-- A list of integers is sorted in non-decreasing order. -/
def nonDecreasing : List ℤ → Bool
  | [] => true
  | [_] => true
  | a :: b :: t => decide (a ≤ b) && nonDecreasing (b :: t)

/-- C6 (code bug): with an index rebuilt over N = 2 clauses and k = 3 > N,
FAISS pads the label row with the sentinel `-1`; the source's guard
`if idx < len(clause_texts)` admits `-1`, and Python's negative indexing
wraps it to the LAST snapshot clause.  The search result therefore has a
duplicated entry and is NOT in non-decreasing distance order (distances
here are [4, 900, 4]), instead of being the min(N, k) = 2 distance-sorted
results the spec describes. -/
theorem C6_code_bug_eval :
    (semantic_search lenEmbed "short" 3
        (build_faiss_index lenEmbed
          ⟨["alpha beta gamma delta epsilon zeta", "short b"], none, []⟩)).1 =
      ["short b", "alpha beta gamma delta epsilon zeta", "short b"] ∧
    nonDecreasing (distList lenEmbed "short"
      (semantic_search lenEmbed "short" 3
        (build_faiss_index lenEmbed
          ⟨["alpha beta gamma delta epsilon zeta", "short b"], none, []⟩)).1) = false := by
  decide

/-! ## Snippet resolution (views.py lines 183-192) -/

/-- ASCII lower-casing of one character, as Python `str.lower` acts on the
ASCII range (none of the claims exercise non-ASCII case folding). -/
def lowerAscii (c : Char) : Char := Char.toLower c

def startsWithChars : List Char → List Char → Bool
  | [], _ => true
  | _ :: _, [] => false
  | a :: as, b :: bs => a == b && startsWithChars as bs

/-- Contiguous-substring test: does `hay` contain `needle`? -/
def containsChars (needle : List Char) : List Char → Bool
  | [] => needle.isEmpty
  | c :: rest => startsWithChars needle (c :: rest) || containsChars needle rest

/-- Django's `clause_text__icontains=snippet` filter: case-insensitive
substring containment of the snippet in the stored clause text. -/
def icontains (hay needle : String) : Bool :=
  containsChars (needle.data.map lowerAscii) (hay.data.map lowerAscii)

/-- The Retrieved-step resolution loop (views.py lines 185-192): for each
snippet take the first stored clause whose text contains it
case-insensitively (`.filter(clause_text__icontains=snippet).first()`),
appending the canonical text when one is found; if nothing at all matched,
fall back to the raw snippet list. -/
def resolveSnippets (clauses : List String) (snippets : List String) : List String :=
  let matched := snippets.filterMap (fun sn => clauses.find? (fun c => icontains c sn))
  if matched.isEmpty then snippets else matched

/-- Whether a snippet resolves to some stored clause. -/
def resolvesIn (clauses : List String) (sn : String) : Bool :=
  (clauses.find? (fun c => icontains c sn)).isSome

/-- C1 (counterexample): with one stored clause "Alpha Clause Number One"
and the retrieved snippets ["alpha clause", "zzz"], the first snippet
resolves and the second does not; the source DROPS the unresolved snippet
instead of keeping it raw, so the resolved list has 1 entry, not one entry
per retrieved snippet (2). -/
theorem C1_counterexample :
    (resolveSnippets ["Alpha Clause Number One"] ["alpha clause", "zzz"]).length ≠ 2 := by
  decide

theorem filterMap_as_filter_map {α β : Type} (f : α → Option β) (g : α → β) :
    ∀ l : List α,
      l.filterMap f = (l.filter (fun a => (f a).isSome)).map (fun a => (f a).getD (g a)) := by
  intro l
  induction l with
  | nil => rfl
  | cons a t ih =>
    cases hfa : f a with
    | none => simp [List.filterMap_cons, hfa, List.filter_cons, ih]
    | some b => simp [List.filterMap_cons, hfa, List.filter_cons, ih]

/-- C1 (amended): in the Retrieved step, each snippet that resolves
contributes the canonical text of the first matching stored clause, in
retrieval order; snippets that do not resolve are dropped; only when no
snippet at all resolves is the raw snippet list used unmodified.  The
resolved list therefore has one entry per RESOLVING snippet (or is the raw
list when none resolve). -/
theorem C1_amended (clauses snippets : List String) :
    (resolveSnippets clauses snippets = snippets ∧
      ∀ sn ∈ snippets, resolvesIn clauses sn = false) ∨
    ((∃ sn ∈ snippets, resolvesIn clauses sn = true) ∧
      resolveSnippets clauses snippets =
        (snippets.filter (fun sn => resolvesIn clauses sn)).map
          (fun sn => (clauses.find? (fun c => icontains c sn)).getD sn)) := by
  by_cases h :
      (snippets.filterMap (fun sn => clauses.find? (fun c => icontains c sn))).isEmpty = true
  · left
    have hnil : snippets.filterMap (fun sn => clauses.find? (fun c => icontains c sn)) = [] :=
      List.isEmpty_iff.mp h
    constructor
    · rw [resolveSnippets]
      simp only [h, if_true]
    · intro sn hsn
      have := List.filterMap_eq_nil_iff.mp hnil sn hsn
      simp [resolvesIn, this]
  · right
    constructor
    · have hnot : ¬ ∀ sn ∈ snippets, clauses.find? (fun c => icontains c sn) = none := by
        intro hall
        exact h (List.isEmpty_iff.mpr (List.filterMap_eq_nil_iff.mpr hall))
      push_neg at hnot
      obtain ⟨sn, hsn, hfind⟩ := hnot
      refine ⟨sn, hsn, ?_⟩
      simp only [resolvesIn]
      exact Option.isSome_iff_ne_none.mpr hfind
    · rw [resolveSnippets]
      simp only [h]
      rw [if_neg (by simp [h])]
      exact filterMap_as_filter_map _ (fun sn => sn) snippets

/-! ## Query Orchestrator (views.py lines 149-255)

`process_query` is modelled as a function of the query text, an oracle
record fixing the outcome of every external interaction of this one call,
and the system state.  The Gemini calls (`model.generate_content(...).text`
followed by fence-stripping and `json.loads`) are modelled one level up,
by the outcome of that composite: a raised transport error, a text that
fails JSON parsing, or a parsed JSON value.  Exceptions raised by the
embedding call inside `semantic_search` and by `Decision.objects.create`
are injected through `searchExn` / `persistExn`.  Python exceptions do not
roll back database writes, so the exceptional result carries the state as
mutated so far. -/

/-- A parsed JSON value (`json.loads` result). Objects keep field order;
`json.loads` never produces duplicate keys. -/
inductive JVal where
  | null
  | bool (b : Bool)
  | num (q : ℚ)
  | str (s : String)
  | arr (xs : List JVal)
  | obj (fields : List (String × JVal))

/-- Outcome of one `model.generate_content(prompt).text` call followed by
fence-stripping and `json.loads`. -/
inductive GenOutcome where
  | genError (msg : String)
  | badJson
  | goodJson (v : JVal)

/-- Does the generation call itself raise (propagating to the outer
`except` handler)?  `badJson` does not: only `json.loads` fails, which both
call sites catch locally. -/
def GenOutcome.raises : GenOutcome → Bool
  | .genError _ => true
  | _ => false

/-- The parsed-attributes value stored on the Query row by the Parsed step:
the parsed JSON on success, `{}` on a JSONDecodeError
(views.py lines 174-177). -/
def parsedOf : GenOutcome → JVal
  | .goodJson v => v
  | _ => .obj []

/-- Fixed outcomes of every external interaction of one `process_query`
call. -/
structure QueryOracles where
  emb : String → List ℤ
  parseGen : GenOutcome
  decideGen : GenOutcome
  searchExn : Option String
  persistExn : Option String

/-- A persisted Query row (models.py `Query`). -/
structure QueryRow where
  query_text : String
  parsed_data : Option JVal

/-- A persisted Decision row (models.py `Decision`), with the field values
`Decision.objects.create` receives at views.py lines 237-243. -/
structure DecisionRow where
  query_id : ℕ
  decision_status : JVal
  amount : JVal
  justification : JVal
  referenced_clauses : JVal

/-- Whole-system state: the index component plus the Query and Decision
tables (in insertion order). -/
structure SysState where
  ix : IndexState
  queries : List QueryRow
  decisions : List DecisionRow

/-- Result of a Python block that may raise. -/
inductive PyResult (α : Type) where
  | ok (a : α)
  | exn (msg : String)

/-- Python dict lookup `d.get(k)` on a parsed JSON object. -/
def dictGet? (fs : List (String × JVal)) (k : String) : Option JVal :=
  (fs.find? (fun p => p.1 == k)).map (fun p => p.2)

/-- Python dict assignment `d[k] = v`: overwrite in place if present,
append otherwise. -/
def dictSet (fs : List (String × JVal)) (k : String) (v : JVal) : List (String × JVal) :=
  if fs.any (fun p => p.1 == k) then fs.map (fun p => if p.1 == k then (k, v) else p)
  else fs ++ [(k, v)]

/-- The "Ensure keys" block (views.py lines 229-234): when the parsed
decision object lacks the "decision" key, overwrite all four keys with the
default NeedsReview object referencing the resolved clause list. -/
def ensureKeys (fs : List (String × JVal)) (matched : List String) : List (String × JVal) :=
  if (dictGet? fs "decision").isNone then
    dictSet (dictSet (dictSet (dictSet fs
      "decision" (JVal.str "Needs Review"))
      "amount" JVal.null)
      "justification" (JVal.str "Insufficient data to decide."))
      "referenced_clauses" (JVal.arr (matched.map JVal.str))
  else fs

/-- The fallback decision object substituted on a JSONDecodeError of the
decision response (views.py lines 221-227). -/
def fallbackDecision (matched : List String) : List (String × JVal) :=
  [("decision", JVal.str "Needs Review"),
   ("amount", JVal.null),
   ("justification", JVal.str "Gemini returned invalid output."),
   ("referenced_clauses", JVal.arr (matched.map JVal.str))]

/-- Update the row at one position of a table, leaving the rest unchanged
(the effect of `q.save()` on the row `q`). -/
def modifyAt (f : QueryRow → QueryRow) : ℕ → List QueryRow → List QueryRow
  | _, [] => []
  | 0, q :: qs => f q :: qs
  | n + 1, q :: qs => q :: modifyAt f n qs

/-- The clause list the Retrieved step resolves to (views.py lines
183-192): search with k = 5, then resolve each snippet against the clause
store as it stands after the search's possible lazy rebuild. -/
def retrieved_for (emb : String → List ℤ) (qt : String) (ix : IndexState) : List String :=
  let sr := semantic_search emb qt 5 ix
  resolveSnippets sr.2.clauses sr.1

/-- The `q.parsed_data = parsed_data; q.save()` write of views.py lines
179-180, on the row at position `qid`. -/
def setQueryParsed (qid : ℕ) (pd : JVal) (st : SysState) : SysState :=
  { st with queries := modifyAt (fun r => { r with parsed_data := some pd }) qid st.queries }

/-- The Decision row `Decision.objects.create` receives (views.py lines
237-243): `amount` via `.get("amount")` (absent and JSON-null conflate to
`None`, stored as NULL), `referenced_clauses` via
`.get("referenced_clauses", matched_clauses_texts)`. -/
def mkRow (qid : ℕ) (fs : List (String × JVal)) (matched : List String)
    (dec just : JVal) : DecisionRow :=
  { query_id := qid
    decision_status := dec
    amount := (dictGet? fs "amount").getD JVal.null
    justification := just
    referenced_clauses :=
      (dictGet? fs "referenced_clauses").getD (JVal.arr (matched.map JVal.str)) }

/-- The Decided and Persisted steps (views.py lines 215-243), after the
resolved clause list `matched` is known.  A transport failure of the
decision call raises; a JSONDecodeError substitutes the fallback object; a
parse result that is not a JSON object raises a TypeError at the
`"decision" not in decision_data` / item-assignment lines; then the ensure
block runs, the two mandatory keys are read (KeyError when absent), and
`Decision.objects.create` persists the row or raises (`pe`). -/
def query_decide_persist (g2 : GenOutcome) (matched : List String) (pe : Option String)
    (qid : ℕ) (st : SysState) : PyResult (List (String × JVal)) × SysState :=
  match g2 with
  | .genError m => (.exn m, st)
  | g =>
    let dd : Option (List (String × JVal)) :=
      match g with
      | .badJson => some (fallbackDecision matched)
      | .goodJson (JVal.obj fs) => some fs
      | _ => none
    match dd with
    | none => (.exn "TypeError", st)
    | some fs0 =>
      let fs := ensureKeys fs0 matched
      match dictGet? fs "decision", dictGet? fs "justification" with
      | some dec, some just =>
        match pe with
        | some m => (.exn m, st)
        | none => (.ok fs, { st with decisions := st.decisions ++ [mkRow qid fs matched dec just] })
      | _, _ => (.exn "KeyError", st)

/-- The body of the `try:` block of `process_query` (views.py lines
163-245), entered after the Query row was created.  `qid` is the position
of that row.  Returns the success dict or the exception message, together
with the state as mutated so far (writes before a raise persist). -/
def query_try_body (query_text : String) (o : QueryOracles) (qid : ℕ) (st : SysState) :
    PyResult (List (String × JVal)) × SysState :=
  match o.parseGen with
  | .genError m => (.exn m, st)
  | g1 =>
    let st1 : SysState := setQueryParsed qid (parsedOf g1) st
    match o.searchExn with
    | some m => (.exn m, st1)
    | none =>
      let sr := semantic_search o.emb query_text 5 st1.ix
      let st2 : SysState := { st1 with ix := sr.2 }
      let matched := resolveSnippets st2.ix.clauses sr.1
      query_decide_persist o.decideGen matched o.persistExn qid st2

/-- An HTTP-level JSON response: body and status code. -/
structure HttpResponse where
  body : JVal
  status : ℕ

/-- The degraded Decision-shaped error body built by the outer `except`
handler (views.py lines 247-253). -/
def mkDegraded (m : String) : JVal :=
  JVal.obj [("decision", JVal.str "Needs Review"),
            ("amount", JVal.null),
            ("justification", JVal.str ("❌ Error: " ++ m)),
            ("referenced_clauses", JVal.arr [])]

/-- `process_query` (views.py lines 149-255) for a POST request: create the
Query row, run the try-body, and answer 200 with the decision dict or 500
with the degraded error body. -/
def process_query (query_text : String) (o : QueryOracles) (st0 : SysState) :
    HttpResponse × SysState :=
  let qid := st0.queries.length
  let st1 : SysState :=
    { st0 with queries := st0.queries ++ [{ query_text := query_text, parsed_data := none }] }
  match query_try_body query_text o qid st1 with
  | (.ok fs, st2) => ({ body := JVal.obj fs, status := 200 }, st2)
  | (.exn m, st2) => ({ body := mkDegraded m, status := 500 }, st2)

theorem find?_key_map_subst (k k' : String) (v : JVal) (h : k' ≠ k) :
    ∀ t : List (String × JVal),
      List.find? (fun p => p.1 == k')
          (t.map (fun p => if p.1 == k then (k, v) else p)) =
        List.find? (fun p => p.1 == k') t := by
  intro t
  have hkk' : ¬ ((k, v).1 == k') = true := by
    simp only [beq_iff_eq]
    exact fun hk => h hk.symm
  induction t with
  | nil => rfl
  | cons a t ih =>
    rw [List.map_cons]
    by_cases ha : a.1 = k
    · have ha' : ¬ (a.1 == k') = true := by
        simp only [beq_iff_eq, ha]
        exact fun hk => h hk.symm
      rw [if_pos (by simp [ha])]
      rw [List.find?_cons_of_neg (p := fun (q : String × JVal) => q.1 == k') _ hkk',
        List.find?_cons_of_neg (p := fun (q : String × JVal) => q.1 == k') _ ha']
      exact ih
    · rw [if_neg (by simp [ha])]
      by_cases ha2 : a.1 = k'
      · rw [List.find?_cons_of_pos _ (by simp [ha2]), List.find?_cons_of_pos _ (by simp [ha2])]
      · rw [List.find?_cons_of_neg _ (by simp [ha2]), List.find?_cons_of_neg _ (by simp [ha2])]
        exact ih

theorem dictGet?_dictSet_self (fs : List (String × JVal)) (k : String) (v : JVal) :
    dictGet? (dictSet fs k v) k = some v := by
  induction fs with
  | nil => simp [dictSet, dictGet?]
  | cons a t ih =>
    by_cases ha : a.1 = k
    · have hany : ((a :: t).any (fun p => p.1 == k)) = true := by
        simp [List.any_cons, ha]
      rw [dictSet, if_pos hany, List.map_cons, if_pos (by simp [ha])]
      rw [dictGet?, List.find?_cons_of_pos (p := fun (q : String × JVal) => q.1 == k) _ (by simp)]
      rfl
    · by_cases ht : (t.any (fun p => p.1 == k)) = true
      · have hany : ((a :: t).any (fun p => p.1 == k)) = true := by
          simp [List.any_cons, ht]
        rw [dictSet, if_pos hany, List.map_cons, if_neg (by simp [ha])]
        rw [dictGet?, List.find?_cons_of_neg _ (by simp [ha])]
        have ih' := ih
        rw [dictSet, if_pos ht, dictGet?] at ih'
        exact ih'
      · have hany : ¬ ((a :: t).any (fun p => p.1 == k)) = true := by
          simp [List.any_cons, ha]
          simpa using ht
        rw [dictSet, if_neg hany, List.cons_append]
        rw [dictGet?, List.find?_cons_of_neg _ (by simp [ha])]
        have ih' := ih
        rw [dictSet, if_neg ht, dictGet?] at ih'
        exact ih'

theorem dictGet?_dictSet_ne (fs : List (String × JVal)) (k k' : String) (v : JVal)
    (h : k' ≠ k) :
    dictGet? (dictSet fs k v) k' = dictGet? fs k' := by
  by_cases hany : (fs.any (fun p => p.1 == k)) = true
  · rw [dictSet, if_pos hany]
    rw [dictGet?, dictGet?, find?_key_map_subst k k' v h fs]
  · rw [dictSet, if_neg hany]
    rw [dictGet?, dictGet?, List.find?_append]
    have hone : List.find? (fun p => p.1 == k') [(k, v)] = none := by
      rw [List.find?_cons_of_neg (p := fun (q : String × JVal) => q.1 == k') _
        (by simp only [beq_iff_eq]; exact fun hk => h hk.symm)]
      rfl
    rw [hone]
    simp

theorem ensureKeys_of_missing (fs : List (String × JVal)) (matched : List String)
    (h : dictGet? fs "decision" = none) :
    dictGet? (ensureKeys fs matched) "decision" = some (JVal.str "Needs Review") ∧
    dictGet? (ensureKeys fs matched) "amount" = some JVal.null ∧
    dictGet? (ensureKeys fs matched) "justification" =
      some (JVal.str "Insufficient data to decide.") ∧
    dictGet? (ensureKeys fs matched) "referenced_clauses" =
      some (JVal.arr (matched.map JVal.str)) := by
  rw [ensureKeys, h]
  simp only [Option.isNone_none, if_true]
  refine ⟨?_, ?_, ?_, ?_⟩
  · rw [dictGet?_dictSet_ne _ _ _ _ (by decide), dictGet?_dictSet_ne _ _ _ _ (by decide),
      dictGet?_dictSet_ne _ _ _ _ (by decide), dictGet?_dictSet_self]
  · rw [dictGet?_dictSet_ne _ _ _ _ (by decide), dictGet?_dictSet_ne _ _ _ _ (by decide),
      dictGet?_dictSet_self]
  · rw [dictGet?_dictSet_ne _ _ _ _ (by decide), dictGet?_dictSet_self]
  · rw [dictGet?_dictSet_self]

theorem ensureKeys_of_present (fs : List (String × JVal)) (matched : List String)
    (d : JVal) (h : dictGet? fs "decision" = some d) :
    ensureKeys fs matched = fs := by
  rw [ensureKeys, h]
  rfl

theorem ensureKeys_fallback (matched : List String) :
    ensureKeys (fallbackDecision matched) matched = fallbackDecision matched :=
  ensureKeys_of_present _ _ _ rfl

theorem modifyAt_append (f : QueryRow → QueryRow) (l : List QueryRow) (x : QueryRow) :
    modifyAt f l.length (l ++ [x]) = l ++ [f x] := by
  induction l with
  | nil => rfl
  | cons a t ih =>
    show a :: modifyAt f t.length (t ++ [x]) = a :: (t ++ [f x])
    rw [ih]

theorem qdp_badJson_eq (matched : List String) (pe : Option String) (qid : ℕ)
    (st : SysState) :
    query_decide_persist .badJson matched pe qid st =
      match pe with
      | some m => (.exn m, st)
      | none => (.ok (fallbackDecision matched),
          { st with decisions := st.decisions ++
              [mkRow qid (fallbackDecision matched) matched (JVal.str "Needs Review")
                (JVal.str "Gemini returned invalid output.")] }) := rfl

theorem qdp_obj_eq (fs0 : List (String × JVal)) (matched : List String)
    (pe : Option String) (qid : ℕ) (st : SysState) :
    query_decide_persist (.goodJson (.obj fs0)) matched pe qid st =
      match dictGet? (ensureKeys fs0 matched) "decision",
            dictGet? (ensureKeys fs0 matched) "justification" with
      | some dec, some just =>
        match pe with
        | some m => (.exn m, st)
        | none => (.ok (ensureKeys fs0 matched),
            { st with decisions := st.decisions ++
                [mkRow qid (ensureKeys fs0 matched) matched dec just] })
      | _, _ => (.exn "KeyError", st) := rfl

theorem qdp_cases (g2 : GenOutcome) (matched : List String) (pe : Option String)
    (qid : ℕ) (st : SysState) :
    (∃ m, query_decide_persist g2 matched pe qid st = (.exn m, st)) ∨
    (∃ fs row, query_decide_persist g2 matched pe qid st =
      (.ok fs, { st with decisions := st.decisions ++ [row] })) := by
  cases g2 with
  | genError m => exact Or.inl ⟨m, rfl⟩
  | badJson =>
    cases pe with
    | some m => exact Or.inl ⟨m, rfl⟩
    | none => exact Or.inr ⟨_, _, rfl⟩
  | goodJson v =>
    cases v with
    | null => exact Or.inl ⟨"TypeError", rfl⟩
    | bool b => exact Or.inl ⟨"TypeError", rfl⟩
    | num q => exact Or.inl ⟨"TypeError", rfl⟩
    | str s => exact Or.inl ⟨"TypeError", rfl⟩
    | arr xs => exact Or.inl ⟨"TypeError", rfl⟩
    | obj fs0 =>
      rw [qdp_obj_eq]
      rcases hd : dictGet? (ensureKeys fs0 matched) "decision" with _ | dec
      · exact Or.inl ⟨"KeyError", rfl⟩
      · rcases hj : dictGet? (ensureKeys fs0 matched) "justification" with _ | just
        · exact Or.inl ⟨"KeyError", rfl⟩
        · cases pe with
          | some m => exact Or.inl ⟨m, rfl⟩
          | none => exact Or.inr ⟨_, _, rfl⟩

theorem qdp_exn_of_failure (g2 : GenOutcome) (matched : List String) (pe : Option String)
    (qid : ℕ) (st : SysState) (h : g2.raises = true ∨ pe ≠ none) :
    ∃ m, query_decide_persist g2 matched pe qid st = (.exn m, st) := by
  cases g2 with
  | genError m => exact ⟨m, rfl⟩
  | badJson =>
    rcases h with h | h
    · simp [GenOutcome.raises] at h
    · cases pe with
      | none => exact absurd rfl h
      | some m => exact ⟨m, rfl⟩
  | goodJson v =>
    cases v with
    | null => exact ⟨"TypeError", rfl⟩
    | bool b => exact ⟨"TypeError", rfl⟩
    | num q => exact ⟨"TypeError", rfl⟩
    | str s => exact ⟨"TypeError", rfl⟩
    | arr xs => exact ⟨"TypeError", rfl⟩
    | obj fs0 =>
      rcases h with h | h
      · simp [GenOutcome.raises] at h
      · rw [qdp_obj_eq]
        rcases hd : dictGet? (ensureKeys fs0 matched) "decision" with _ | dec
        · exact ⟨"KeyError", rfl⟩
        · rcases hj : dictGet? (ensureKeys fs0 matched) "justification" with _ | just
          · exact ⟨"KeyError", rfl⟩
          · cases pe with
            | none => exact absurd rfl h
            | some m => exact ⟨m, rfl⟩

theorem query_try_body_eq (qt : String) (emb : String → List ℤ) (g1 g2 : GenOutcome)
    (se pe : Option String) (qid : ℕ) (st : SysState) (hg : g1.raises = false) :
    query_try_body qt ⟨emb, g1, g2, se, pe⟩ qid st =
      match se with
      | some m => (.exn m, setQueryParsed qid (parsedOf g1) st)
      | none =>
          query_decide_persist g2
            (resolveSnippets (semantic_search emb qt 5 st.ix).2.clauses
              (semantic_search emb qt 5 st.ix).1)
            pe qid
            { setQueryParsed qid (parsedOf g1) st with
                ix := (semantic_search emb qt 5 st.ix).2 } := by
  cases g1 with
  | genError m => simp [GenOutcome.raises] at hg
  | badJson => cases se <;> rfl
  | goodJson v => cases se <;> rfl

theorem query_try_body_cases (qt : String) (o : QueryOracles) (qid : ℕ) (st : SysState) :
    (∃ m st2, query_try_body qt o qid st = (.exn m, st2) ∧
       st2.decisions = st.decisions ∧
       (st2.queries = st.queries ∨
         st2.queries = modifyAt
           (fun r => { r with parsed_data := some (parsedOf o.parseGen) }) qid st.queries)) ∨
    (∃ fs row st2, query_try_body qt o qid st = (.ok fs, st2) ∧
       st2.decisions = st.decisions ++ [row] ∧
       st2.queries = modifyAt
         (fun r => { r with parsed_data := some (parsedOf o.parseGen) }) qid st.queries) := by
  obtain ⟨emb, g1, g2, se, pe⟩ := o
  by_cases hg : g1.raises = true
  · cases g1 with
    | genError m => exact Or.inl ⟨m, st, rfl, rfl, Or.inl rfl⟩
    | badJson => simp [GenOutcome.raises] at hg
    | goodJson v => simp [GenOutcome.raises] at hg
  · have hg2 : g1.raises = false := by simpa using hg
    rw [query_try_body_eq qt emb g1 g2 se pe qid st hg2]
    cases se with
    | some m =>
      exact Or.inl ⟨m, setQueryParsed qid (parsedOf g1) st, rfl, rfl, Or.inr rfl⟩
    | none =>
      rcases qdp_cases g2
          (resolveSnippets (semantic_search emb qt 5 st.ix).2.clauses
            (semantic_search emb qt 5 st.ix).1) pe qid
          { setQueryParsed qid (parsedOf g1) st with
              ix := (semantic_search emb qt 5 st.ix).2 } with ⟨m, hm⟩ | ⟨fs, row, hm⟩
      · exact Or.inl ⟨m, _, hm, rfl, Or.inr rfl⟩
      · exact Or.inr ⟨fs, row, _, hm, rfl, rfl⟩

theorem query_try_body_exn_of_failure (qt : String) (o : QueryOracles) (qid : ℕ)
    (st : SysState)
    (h : o.parseGen.raises = true ∨ o.searchExn ≠ none ∨ o.decideGen.raises = true ∨
      o.persistExn ≠ none) :
    ∃ m st2, query_try_body qt o qid st = (.exn m, st2) := by
  obtain ⟨emb, g1, g2, se, pe⟩ := o
  simp only at h
  by_cases hg : g1.raises = true
  · cases g1 with
    | genError m => exact ⟨m, st, rfl⟩
    | badJson => simp [GenOutcome.raises] at hg
    | goodJson v => simp [GenOutcome.raises] at hg
  · have hg2 : g1.raises = false := by simpa using hg
    rw [query_try_body_eq qt emb g1 g2 se pe qid st hg2]
    cases se with
    | some m => exact ⟨m, _, rfl⟩
    | none =>
      have h2 : g2.raises = true ∨ pe ≠ none := by
        rcases h with h | h | h | h
        · exact absurd h hg
        · exact absurd rfl h
        · exact Or.inl h
        · exact Or.inr h
      obtain ⟨m, hm⟩ := qdp_exn_of_failure g2
        (resolveSnippets (semantic_search emb qt 5 st.ix).2.clauses
          (semantic_search emb qt 5 st.ix).1) pe qid
        { setQueryParsed qid (parsedOf g1) st with
            ix := (semantic_search emb qt 5 st.ix).2 } h2
      exact ⟨m, _, hm⟩

/-- C5: every failure raised at any step after the Query row is created —
a transport failure of either reasoning-capability call, a failure raised
inside the search step, or a failure of the Decision persistence — is
caught by the outer handler, and the caller receives a Decision-shaped
response with status "Needs Review", amount null, a justification carrying
the diagnostic message, empty referenced_clauses, and the error signal
HTTP 500; no failure propagates to the caller. -/
theorem C5_failures_degrade (qt : String) (o : QueryOracles) (st : SysState)
    (h : o.parseGen.raises = true ∨ o.searchExn ≠ none ∨ o.decideGen.raises = true ∨
      o.persistExn ≠ none) :
    ∃ m st2, process_query qt o st = ({ body := mkDegraded m, status := 500 }, st2) := by
  obtain ⟨m, st2, hm⟩ := query_try_body_exn_of_failure qt o st.queries.length
    { st with queries := st.queries ++ [{ query_text := qt, parsed_data := none }] } h
  refine ⟨m, st2, ?_⟩
  simp only [process_query]
  rw [hm]

/-- C5 witness: a transport failure of the attribute-extraction call
degrades to the 500 NeedsReview response. -/
theorem C5_witness :
    ∃ m st2, process_query "q"
      ⟨fun _ => [], .genError "boom", .badJson, none, none⟩
      ⟨⟨[], none, []⟩, [], []⟩ = ({ body := mkDegraded m, status := 500 }, st2) :=
  C5_failures_degrade "q" ⟨fun _ => [], .genError "boom", .badJson, none, none⟩
    ⟨⟨[], none, []⟩, [], []⟩ (Or.inl rfl)

/-- C10 (implicit): the query pipeline always persists the Query row
created at the start (with its parsed attributes possibly filled in), and
it persists a Decision row exactly on the successful (status 200) path:
on the degraded error path (status 500) the Decision table is unchanged. -/
theorem C10_decision_only_on_success (qt : String) (o : QueryOracles) (st : SysState) :
    (∃ pd, ((process_query qt o st).2).queries =
      st.queries ++ [{ query_text := qt, parsed_data := pd }]) ∧
    (((process_query qt o st).1.status = 500 ∧
        (process_query qt o st).2.decisions = st.decisions) ∨
     ((process_query qt o st).1.status = 200 ∧
        ∃ row, (process_query qt o st).2.decisions = st.decisions ++ [row])) := by
  rcases query_try_body_cases qt o st.queries.length
      { st with queries := st.queries ++ [{ query_text := qt, parsed_data := none }] }
    with ⟨m, st2, heq, hdec, hq⟩ | ⟨fs, row, st2, heq, hdec, hq⟩
  · have hpq : process_query qt o st = ({ body := mkDegraded m, status := 500 }, st2) := by
      simp only [process_query]
      rw [heq]
    rw [hpq]
    constructor
    · rcases hq with hq | hq
      · exact ⟨none, hq⟩
      · refine ⟨some (parsedOf o.parseGen), ?_⟩
        rw [hq]
        show modifyAt _ st.queries.length (st.queries ++ [_]) = _
        rw [modifyAt_append]
    · exact Or.inl ⟨rfl, hdec⟩
  · have hpq : process_query qt o st = ({ body := JVal.obj fs, status := 200 }, st2) := by
      simp only [process_query]
      rw [heq]
    rw [hpq]
    constructor
    · refine ⟨some (parsedOf o.parseGen), ?_⟩
      rw [hq]
      show modifyAt _ st.queries.length (st.queries ++ [_]) = _
      rw [modifyAt_append]
    · exact Or.inr ⟨rfl, row, hdec⟩

theorem qdp_missing_decision (fs0 : List (String × JVal)) (matched : List String)
    (qid : ℕ) (st : SysState) (h4 : dictGet? fs0 "decision" = none) :
    query_decide_persist (.goodJson (.obj fs0)) matched none qid st =
      (.ok (ensureKeys fs0 matched),
       { st with decisions := st.decisions ++
           [{ query_id := qid
              decision_status := JVal.str "Needs Review"
              amount := JVal.null
              justification := JVal.str "Insufficient data to decide."
              referenced_clauses := JVal.arr (matched.map JVal.str) }] }) := by
  obtain ⟨hdec, hamt, hjust, hrefs⟩ := ensureKeys_of_missing fs0 matched h4
  rw [qdp_obj_eq, hdec, hjust]
  show (PyResult.ok (ensureKeys fs0 matched),
      { st with decisions := st.decisions ++
          [mkRow qid (ensureKeys fs0 matched) matched (JVal.str "Needs Review")
            (JVal.str "Insufficient data to decide.")] }) = _
  rw [mkRow, hamt, hrefs]
  rfl

theorem process_query_eq_none (qt : String) (emb : String → List ℤ) (g1 g2 : GenOutcome)
    (pe : Option String) (st : SysState) (hg : g1.raises = false) :
    process_query qt ⟨emb, g1, g2, none, pe⟩ st =
      match query_decide_persist g2 (retrieved_for emb qt st.ix) pe st.queries.length
          { setQueryParsed st.queries.length (parsedOf g1)
              { st with queries := st.queries ++ [{ query_text := qt, parsed_data := none }] } with
              ix := (semantic_search emb qt 5 st.ix).2 } with
      | (.ok fs, st2) => ({ body := JVal.obj fs, status := 200 }, st2)
      | (.exn m, st2) => ({ body := mkDegraded m, status := 500 }, st2) := by
  simp only [process_query]
  rw [query_try_body_eq qt emb g1 g2 none pe st.queries.length _ hg]
  rfl

/-- C4: when the decision response parses as a JSON object that lacks the
"decision" key (and the pipeline reaches the Decided step and persistence
succeeds), the orchestrator persists a Decision row with status
"Needs Review", amount null, the fixed diagnostic justification, and
referenced_clauses equal to exactly the resolved clause list produced by
the Retrieved step; the call answers with status 200. -/
theorem C4_missing_decision_key (qt : String) (o : QueryOracles) (st : SysState)
    (fs : List (String × JVal))
    (h1 : o.parseGen.raises = false) (h2 : o.searchExn = none)
    (h3 : o.decideGen = .goodJson (JVal.obj fs))
    (h4 : dictGet? fs "decision" = none)
    (h5 : o.persistExn = none) :
    (process_query qt o st).1.status = 200 ∧
    (process_query qt o st).2.decisions = st.decisions ++
      [{ query_id := st.queries.length
         decision_status := JVal.str "Needs Review"
         amount := JVal.null
         justification := JVal.str "Insufficient data to decide."
         referenced_clauses :=
           JVal.arr ((retrieved_for o.emb qt st.ix).map JVal.str) }] := by
  obtain ⟨emb, g1, g2, se, pe⟩ := o
  replace h1 : g1.raises = false := h1
  replace h2 : se = none := h2
  replace h3 : g2 = GenOutcome.goodJson (JVal.obj fs) := h3
  replace h5 : pe = none := h5
  subst h2
  subst h3
  subst h5
  rw [process_query_eq_none qt emb g1 (.goodJson (.obj fs)) none st h1]
  rw [qdp_missing_decision fs (retrieved_for emb qt st.ix) st.queries.length _ h4]
  exact ⟨rfl, rfl⟩

/-- C4 witness: with an empty corpus, a parse fallback, and a decision
object `{}` (no "decision" key), the pipeline persists the default
NeedsReview row with empty referenced clauses and answers 200. -/
theorem C4_witness :
    (process_query "q" ⟨fun _ => ([] : List ℤ), .badJson, .goodJson (.obj []), none, none⟩
        ⟨⟨[], none, []⟩, [], []⟩).1.status = 200 ∧
    (process_query "q" ⟨fun _ => ([] : List ℤ), .badJson, .goodJson (.obj []), none, none⟩
        ⟨⟨[], none, []⟩, [], []⟩).2.decisions =
      [{ query_id := 0
         decision_status := JVal.str "Needs Review"
         amount := JVal.null
         justification := JVal.str "Insufficient data to decide."
         referenced_clauses := JVal.arr [] }] :=
  C4_missing_decision_key "q"
    ⟨fun _ => ([] : List ℤ), .badJson, .goodJson (.obj []), none, none⟩
    ⟨⟨[], none, []⟩, [], []⟩ [] rfl rfl rfl rfl rfl

/-! ## Ingestion Task upload precondition (views.py lines 70-105)

`upload_document` for a POST request.  The fresh `uuid.uuid4()` value is an
oracle argument.  On acceptance the Document row itself is created later,
inside the spawned background thread (`extract_and_store_clauses`), so the
accepted path records the launched task without touching `docNames`; the
rejected path returns before the task id, the progress entry, or the
thread exist. -/

structure UploadState where
  docNames : List String
  progressEntries : List (String × ℤ)
  launchedTasks : List (String × String)

inductive UploadResp where
  | accepted (task_id : String)
  | validationError (msg : String)

/-- `upload_document` (views.py lines 71-103): reject a duplicate display
name with a 400 validation error before any task state is created;
otherwise create the task id, set its progress entry to 0, and launch the
background ingestion. -/
def upload_document (fileName newTask : String) (st : UploadState) :
    UploadResp × UploadState :=
  if fileName ∈ st.docNames then
    (.validationError ("⚠️ File '" ++ fileName ++ "' already uploaded. Please use it from the list."),
     st)
  else
    (.accepted newTask,
     { st with progressEntries := st.progressEntries ++ [(newTask, 0)],
               launchedTasks := st.launchedTasks ++ [(newTask, fileName)] })

/-- C9: an upload whose file display name equals an already-stored
Document's name returns a validation error and leaves the store completely
unchanged: no Document row, no task identifier, no progress entry is
created. -/
theorem C9_duplicate_upload_rejected (fileName newTask : String) (st : UploadState)
    (h : fileName ∈ st.docNames) :
    (upload_document fileName newTask st).1 =
      UploadResp.validationError
        ("⚠️ File '" ++ fileName ++ "' already uploaded. Please use it from the list.") ∧
    (upload_document fileName newTask st).2 = st := by
  rw [upload_document, if_pos h]
  exact ⟨rfl, rfl⟩

/-- C9 witness: re-uploading "a.pdf" is rejected and changes nothing. -/
theorem C9_witness :
    "a.pdf" ∈ (⟨["a.pdf"], [], []⟩ : UploadState).docNames ∧
    (upload_document "a.pdf" "t1" ⟨["a.pdf"], [], []⟩).1 =
      UploadResp.validationError
        ("⚠️ File '" ++ "a.pdf" ++ "' already uploaded. Please use it from the list.") ∧
    (upload_document "a.pdf" "t1" ⟨["a.pdf"], [], []⟩).2 = ⟨["a.pdf"], [], []⟩ :=
  ⟨by decide, C9_duplicate_upload_rejected "a.pdf" "t1" ⟨["a.pdf"], [], []⟩ (by decide)⟩

end AISystem
